import Mathlib

/-!
Verification development for the GridCal continuation power flow engine
(`src/GridCal/Engine/Simulations/ContinuationPowerFlow/continuation_power_flow.py`).

The numerical code is embedded shallowly over exact rationals:

* complex numbers are pairs of rationals (`CQ`);
* the numpy primitives `np.angle`, `np.abs` (of a complex vector) and
  `exp(1j*theta)`, the square root used by `linalg.norm` for the Euclidean
  norm, and the external sparse linear solves
  (`_create_J_with_numba` + `scipy.sparse.linalg.spsolve`, both imported
  from outside the translated file) are supplied as explicit function
  parameters, so every definition stays computable and every concrete run
  can be evaluated by `decide`;
* the external collaborators of the continuation driver
  (`predictor`/`corrector` seen from the driver, `control_q_direct`,
  `compile_types`) are supplied as a record of injected functions, which is
  exactly how the specification describes them (strategy interfaces).

Machine floats are idealized as exact rationals throughout.
-/

/-- Complex number with rational real and imaginary parts, standing for the
numpy complex values of the source. -/
structure CQ where
  re : ℚ
  im : ℚ
deriving DecidableEq

namespace CQ

/-- Addition of rational complex numbers. -/
def add (a b : CQ) : CQ := ⟨a.re + b.re, a.im + b.im⟩

/-- Subtraction of rational complex numbers. -/
def sub (a b : CQ) : CQ := ⟨a.re - b.re, a.im - b.im⟩

/-- Multiplication of rational complex numbers. -/
def mul (a b : CQ) : CQ := ⟨a.re * b.re - a.im * b.im, a.re * b.im + a.im * b.re⟩

/-- Complex conjugate. -/
def conj (a : CQ) : CQ := ⟨a.re, -a.im⟩

/-- Scalar (real) multiple of a complex number. -/
def smul (r : ℚ) (a : CQ) : CQ := ⟨r * a.re, r * a.im⟩

/-- The complex zero. -/
def zero : CQ := ⟨0, 0⟩

instance : Add CQ := ⟨add⟩
instance : Sub CQ := ⟨sub⟩
instance : Mul CQ := ⟨mul⟩
instance : Inhabited CQ := ⟨zero⟩

end CQ

/-- Element of a rational list with default 0, matching numpy indexing of a
real vector. -/
def getQ (l : List ℚ) (i : ℕ) : ℚ := l.getD i 0

/-- Element of a complex list with default 0, matching numpy indexing of a
complex vector. -/
def getC (l : List CQ) (i : ℕ) : CQ := l.getD i CQ.zero

/-- Sum of a rational list. -/
def sumQ (l : List ℚ) : ℚ := l.foldr (· + ·) 0

/-- Sum of squares of a rational list (`np.sum(np.power(v, 2))`, and the
square of the Euclidean norm). -/
def sumSq (l : List ℚ) : ℚ := sumQ (l.map fun x => x * x)

/-- Dot product of two rational lists (`numpy.dot`). -/
def dotQ (a b : List ℚ) : ℚ := sumQ (List.zipWith (· * ·) a b)

/-- Elementwise difference of two rational lists. -/
def subQ (a b : List ℚ) : List ℚ := List.zipWith (· - ·) a b

/-- Infinity norm of a rational vector (`numpy.linalg.norm(v, numpy.Inf)`). -/
def infNorm (l : List ℚ) : ℚ := l.foldr (fun x m => max |x| m) 0

/-- Sum of a complex list. -/
def sumC (l : List CQ) : CQ := l.foldr (· + ·) CQ.zero

/-- `base[idxs] += delta` for a real numpy vector: the entry at bus index
`idxs[k]` becomes `base[idxs[k]] + delta[k]` (entries outside `idxs` are
unchanged; with the index lists of the source, which hold no duplicates,
this is numpy fancy-indexed in-place addition). -/
def addAt (base : List ℚ) (idxs : List ℕ) (delta : List ℚ) : List ℚ :=
  base.mapIdx fun j x =>
    match idxs.findIdx? (fun i => i == j) with
    | some k => x + getQ delta k
    | none => x

/-- `base[idxs] = vals` for a real numpy vector: the entry at index
`idxs[k]` becomes `vals[k]`. -/
def setAt (base : List ℚ) (idxs : List ℕ) (vals : List ℚ) : List ℚ :=
  base.mapIdx fun j x =>
    match idxs.findIdx? (fun i => i == j) with
    | some k => getQ vals k
    | none => x

/-- The three values of `VCParametrization`, plus `Other` standing for any
value that is none of the three (the `else` branches of the source's
`if/elif` dispatch). -/
inductive Param where
  | Natural
  | ArcLength
  | PseudoArcLength
  | Other
deriving DecidableEq

/-- The values of `VCStopAt`, plus `Other` for any unrecognized stop-mode
configuration value (the `else` branch raising an exception). -/
inductive StopMode where
  | Nose
  | Full
  | Other
deriving DecidableEq

/-- `cpf_p`: value of the continuation parametrization function at the
current point.  `argF`/`absF` stand for `numpy.angle`/`numpy.abs` applied to
one complex entry; the remaining arguments follow the source's signature
`cpf_p(parametrization, step, z, V, lam, V_prev, lamprv, pv, pq, pvpq)`. -/
def cpf_p (argF absF : CQ → ℚ) (parametrization : Param) (step : ℚ) (z : List ℚ)
    (V : List CQ) (lam : ℚ) (V_prev : List CQ) (lamprv : ℚ)
    (pv pq pvpq : List ℕ) : ℚ :=
  match parametrization with
  | Param.Natural =>
      if lam ≥ lamprv then lam - lamprv - step else lamprv - lam - step
  | Param.ArcLength =>
      let a := pvpq.map (fun j => argF (getC V j)) ++ pq.map (fun j => absF (getC V j)) ++ [lam]
      let b := pvpq.map (fun j => argF (getC V_prev j)) ++ pq.map (fun j => absF (getC V_prev j)) ++ [lamprv]
      sumSq (subQ a b) - step * step
  | Param.PseudoArcLength =>
      let nb := V.length
      let a := (pv ++ pq ++ pq.map (· + nb) ++ [2 * nb]).map (getQ z)
      let b := pvpq.map (fun j => argF (getC V j)) ++ pq.map (fun j => absF (getC V j)) ++ [lam]
      let c := pvpq.map (fun j => argF (getC V_prev j)) ++ pq.map (fun j => absF (getC V_prev j)) ++ [lamprv]
      dotQ a (subQ b c) - step
  | Param.Other =>
      if lam ≥ lamprv then lam - lamprv - step else lamprv - lam - step

/-- `cpf_p_jac`: partial derivatives of the parametrization function with
respect to the voltage unknowns (a vector over the angle slots of `pvpq`
followed by the magnitude slots of `pq`) and with respect to lambda.
Follows the source's `cpf_p_jac(parametrization, z, V, lam, Vprv, lamprv,
pv, pq, pvpq)`; the unrecognized case is the source's final `else`. -/
def cpf_p_jac (argF absF : CQ → ℚ) (parametrization : Param) (z : List ℚ)
    (V : List CQ) (lam : ℚ) (Vprv : List CQ) (lamprv : ℚ)
    (pv pq pvpq : List ℕ) : List ℚ × ℚ :=
  match parametrization with
  | Param.Natural =>
      let npv := pv.length
      let npq := pq.length
      (List.replicate (npv + 2 * npq) 0, if lam ≥ lamprv then 1 else -1)
  | Param.ArcLength =>
      let a := pvpq.map (fun j => argF (getC V j)) ++ pq.map (fun j => absF (getC V j))
      let b := pvpq.map (fun j => argF (getC Vprv j)) ++ pq.map (fun j => absF (getC Vprv j))
      ((subQ a b).map (fun x => 2 * x),
        if lam = lamprv then 1 else 2 * (lam - lamprv))
  | Param.PseudoArcLength =>
      let nb := V.length
      ((pv ++ pq ++ pq.map (· + nb)).map (getQ z), getQ z (2 * nb))
  | Param.Other =>
      let nb := V.length
      ((pv ++ pq ++ pq.map (· + nb)).map (getQ z), getQ z (2 * nb))

/-- Fixed data of one `corrector` call: everything except the initial guess
`(V0, lam0)`.  `Ybus` is the dense form of the sparse admittance matrix,
`solveDx` stands for the external sparse linear solve
`spsolve(J_augmented, F)` (the augmented Jacobian is assembled by the
external `_create_J_with_numba` plus the bordering row/column, so the whole
solve is a function of the current iterate `V`, `lam` and the residual `F`
— all the other ingredients are the fixed fields of this record);
`argF`/`absF`/`expiF` stand for `numpy.angle`, `numpy.abs` and
`exp(1j * theta)` on one entry. -/
structure CorrCfg where
  Ybus : List (List CQ)
  Sbus : List CQ
  Sxfr : List CQ
  pv : List ℕ
  pq : List ℕ
  Vprv : List CQ
  lamprv : ℚ
  z : List ℚ
  step : ℚ
  parametrization : Param
  tol : ℚ
  max_it : ℕ
  argF : CQ → ℚ
  absF : CQ → ℚ
  expiF : ℚ → CQ
  solveDx : List CQ → ℚ → List ℚ → List ℚ

/-- `Scalc = V * conj(Ybus * V)`: complex power computed from the bus
voltages and the admittance matrix. -/
def calcScalc (Ybus : List (List CQ)) (V : List CQ) : List CQ :=
  V.mapIdx fun j vj => vj * CQ.conj (sumC (List.zipWith (· * ·) (Ybus.getD j []) V))

/-- `mismatch = Scalc - Sbus - lam * Sxfr` at bus `j`. -/
def mismatchAt (cfg : CorrCfg) (V : List CQ) (lam : ℚ) (j : ℕ) : CQ :=
  getC (calcScalc cfg.Ybus V) j - getC cfg.Sbus j - CQ.smul lam (getC cfg.Sxfr j)

/-- The residual vector `F = r_[mismatch[pvpq].real, mismatch[pq].imag, P]`
evaluated at `(V, lam)` — the form used before the Newton loop (line 317 of
the source). -/
def corrF0 (cfg : CorrCfg) (V : List CQ) (lam : ℚ) : List ℚ :=
  let pvpq := cfg.pv ++ cfg.pq
  let P := cpf_p cfg.argF cfg.absF cfg.parametrization cfg.step cfg.z V lam
    cfg.Vprv cfg.lamprv cfg.pv cfg.pq pvpq
  pvpq.map (fun j => (mismatchAt cfg V lam j).re)
    ++ cfg.pq.map (fun j => (mismatchAt cfg V lam j).im) ++ [P]

/-- The residual vector as recomposed inside the Newton loop,
`F = r_[mismatch[pv].real, mismatch[pq].real, mismatch[pq].imag, P]`
(lines 374–377 of the source). -/
def corrFloop (cfg : CorrCfg) (V : List CQ) (lam : ℚ) : List ℚ :=
  let pvpq := cfg.pv ++ cfg.pq
  let P := cpf_p cfg.argF cfg.absF cfg.parametrization cfg.step cfg.z V lam
    cfg.Vprv cfg.lamprv cfg.pv cfg.pq pvpq
  cfg.pv.map (fun j => (mismatchAt cfg V lam j).re)
    ++ cfg.pq.map (fun j => (mismatchAt cfg V lam j).re)
    ++ cfg.pq.map (fun j => (mismatchAt cfg V lam j).im) ++ [P]

/-- Mutable state of the corrector's Newton loop. -/
structure CorrSt where
  V : List CQ
  lam : ℚ
  i : ℕ
  F : List ℚ
  normF : ℚ
  Scalc : List CQ

/-- Result of a `corrector` call: the source returns
`V, converged, i, lam, normF, Scalc`. -/
structure CorrRes where
  V : List CQ
  converged : Bool
  i : ℕ
  lam : ℚ
  normF : ℚ
  Scalc : List CQ
deriving DecidableEq

/-- One body of the corrector's Newton loop (lines 330–380 of the source):
solve for the step `dx = -spsolve(J, F)`, update the angles at `pvpq`
(guarded by `if npv:`), the magnitudes at `pq` (guarded by `if npq:`) and
lambda, rebuild `V = Vm * exp(1j*Va)`, and re-evaluate the residual. -/
def corrBody (cfg : CorrCfg) (st : CorrSt) : CorrSt :=
  let npv := cfg.pv.length
  let npq := cfg.pq.length
  let j2 := npv + npq
  let j3 := j2 + npq
  let dx := (cfg.solveDx st.V st.lam st.F).map Neg.neg
  let Va := st.V.map cfg.argF
  let Vm := st.V.map cfg.absF
  let Va1 := if npv ≠ 0 then addAt Va (cfg.pv ++ cfg.pq) (dx.take j2) else Va
  let Vm1 := if npq ≠ 0 then addAt Vm cfg.pq ((dx.drop j2).take npq) else Vm
  let lam1 := st.lam + getQ dx j3
  let V1 := List.zipWith (fun vm va => CQ.smul vm (cfg.expiF va)) Vm1 Va1
  let F1 := corrFloop cfg V1 lam1
  { V := V1, lam := lam1, i := st.i + 1, F := F1, normF := infNorm F1,
    Scalc := calcScalc cfg.Ybus V1 }

/-- The corrector's `while not converged and i < max_it` loop, with the
number of remaining allowed iterations as fuel. -/
def corrLoop (cfg : CorrCfg) : ℕ → CorrSt → CorrRes
  | 0, st => ⟨st.V, false, st.i, st.lam, st.normF, st.Scalc⟩
  | fuel + 1, st =>
      let st1 := corrBody cfg st
      if st1.normF < cfg.tol then ⟨st1.V, true, st1.i, st1.lam, st1.normF, st1.Scalc⟩
      else corrLoop cfg fuel st1

/-- `corrector`: full Newton solve of the augmented system starting from the
predicted guess `(V0, lam0)`.  Evaluates the residual at the guess, declares
convergence immediately if its infinity norm is below `tol` (returning
iteration count 0), and otherwise runs at most `max_it` Newton iterations. -/
def corrector (cfg : CorrCfg) (V0 : List CQ) (lam0 : ℚ) : CorrRes :=
  let F := corrF0 cfg V0 lam0
  let normF := infNorm F
  let Scalc := calcScalc cfg.Ybus V0
  if normF < cfg.tol then ⟨V0, true, 0, lam0, normF, Scalc⟩
  else corrLoop cfg cfg.max_it ⟨V0, lam0, 0, F, normF, Scalc⟩

/-- Fixed data of one `predictor` call.  `solveTan` stands for the external
`spsolve(J2, s)` that computes the raw tangent slice (`J2` is assembled
from the external Jacobian of the current point, the `Sxfr` border column
and the `cpf_p_jac` border row, so the solve is a function of the current
`V`, `lam` and previous tangent `z`); `sqrtF` stands for the square root
inside `numpy.linalg.norm` (Euclidean norm). -/
structure PredCfg where
  pv : List ℕ
  pq : List ℕ
  step : ℚ
  Vprv : List CQ
  lamprv : ℚ
  parametrization : Param
  argF : CQ → ℚ
  absF : CQ → ℚ
  expiF : ℚ → CQ
  sqrtF : ℚ → ℚ
  solveTan : List CQ → ℚ → List ℚ → List ℚ

/-- The raw tangent vector before normalization: the solve result written
into the slots `r_[pvpq, nb + pq, 2*nb]` of the previous tangent
(line 465 of the source). -/
def predZraw (cfg : PredCfg) (V : List CQ) (lam : ℚ) (z : List ℚ) : List ℚ :=
  setAt z ((cfg.pv ++ cfg.pq) ++ cfg.pq.map (· + V.length) ++ [2 * V.length])
    (cfg.solveTan V lam z)

/-- The tangent vector after dividing the raw tangent by its Euclidean
norm (line 468 of the source). -/
def predZ (cfg : PredCfg) (V : List CQ) (lam : ℚ) (z : List ℚ) : List ℚ :=
  (predZraw cfg V lam z).map (· / cfg.sqrtF (sumSq (predZraw cfg V lam z)))

/-- The predicted angle vector: `Va0[pvpq] = Va_prev[pvpq] + step * z[pvpq]`,
other entries keep the current angle. -/
def predVa0 (cfg : PredCfg) (V : List CQ) (lam : ℚ) (z : List ℚ) : List ℚ :=
  let z2 := predZ cfg V lam z
  (V.map cfg.argF).mapIdx fun j va =>
    if j ∈ cfg.pv ++ cfg.pq then va + cfg.step * getQ z2 j else va

/-- The predicted magnitude vector:
`Vm0[pq] = Vm_prev[pq] + step * z[pq + nb]`, other entries keep the current
magnitude. -/
def predVm0 (cfg : PredCfg) (V : List CQ) (lam : ℚ) (z : List ℚ) : List ℚ :=
  let nb := V.length
  let z2 := predZ cfg V lam z
  (V.map cfg.absF).mapIdx fun j vm =>
    if j ∈ cfg.pq then vm + cfg.step * getQ z2 (j + nb) else vm

/-- `predictor`: compute the normalized tangent and extrapolate the next
initial guess `V0 = Vm0 * exp(1j*Va0)`, `lam0 = lam + step * z[2*nb]`.
Returns `(V0, lam0, z)` like the source. -/
def predictor (cfg : PredCfg) (V : List CQ) (lam : ℚ) (z : List ℚ) :
    List CQ × ℚ × List ℚ :=
  let nb := V.length
  let z2 := predZ cfg V lam z
  let Va0 := predVa0 cfg V lam z
  let Vm0 := predVm0 cfg V lam z
  let lam0 := lam + cfg.step * getQ z2 (2 * nb)
  let V0 := List.zipWith (fun vm va => CQ.smul vm (cfg.expiF va)) Vm0 Va0
  (V0, lam0, z2)

/-- Arguments the driver hands to the predictor each iteration. -/
structure PredIn where
  V : List CQ
  lam : ℚ
  step : ℚ
  z : List ℚ
  Vprv : List CQ
  lamprv : ℚ
  pv : List ℕ
  pq : List ℕ
  parametrization : Param
deriving DecidableEq

/-- Predictor output as consumed by the driver: `V0, lam0, z`. -/
structure PredOut where
  V0 : List CQ
  lam0 : ℚ
  z : List ℚ
deriving DecidableEq

/-- Arguments the driver hands to the corrector each iteration (the fields
of the call at lines 581–597 of the source that vary with the driver
state). -/
structure CorrIn where
  Sbus : List CQ
  V0 : List CQ
  pv : List ℕ
  pq : List ℕ
  lam0 : ℚ
  Vprv : List CQ
  lamprv : ℚ
  z : List ℚ
  step : ℚ
  parametrization : Param
deriving DecidableEq

/-- Corrector output as consumed by the driver:
`V, success, i, lam, normF, Scalc`. -/
structure CorrOut where
  V : List CQ
  success : Bool
  iters : ℕ
  lam : ℚ
  normF : ℚ
  Scalc : List CQ
deriving DecidableEq

/-- Output of the reactive-limit control `control_q_direct`:
`V, Qnew, types_new, any_q_control_issue`. -/
structure QOut where
  V : List CQ
  Qnew : List ℚ
  types : List ℕ
  changed : Bool
deriving DecidableEq

/-- Output of `compile_types`: `vd, pq, pv, pqpv`. -/
structure Compiled where
  vd : List ℕ
  pq : List ℕ
  pv : List ℕ
  pqpv : List ℕ
deriving DecidableEq

/-- The collaborators invoked by the continuation driver, injected as
functions: the predictor and corrector (embedded above, abstracted here so
the driver-level control-flow theorems hold for every implementation), the
reactive-limit control `control_q_direct(V, Vset, Q, Qmax, Qmin, types,
original_types)` and the partition builder `compile_types(Sbus, types)`. -/
structure Collab where
  predictorF : PredIn → PredOut
  correctorF : CorrIn → CorrOut
  controlQF : List CQ → List ℚ → List ℚ → List ℚ → List ℚ → List ℕ → List ℕ → QOut
  compileTypesF : List CQ → List ℕ → Compiled

/-- Fixed configuration of one `continuation_nr` call. -/
structure DriverCfg where
  Sbus_base : List CQ
  Sbus_target : List CQ
  stop_at : StopMode
  controlQdirect : Bool
  Qmax : List ℚ
  Qmin : List ℚ
  original_types : List ℕ
  error_tol : ℚ
  step_min : ℚ
  step_max : ℚ
  argF : CQ → ℚ
  absF : CQ → ℚ

/-- Mutable state of the driver loop.  `pvpq0` is the loop-invariant local
`pvpq` computed once before the loop (line 543) and never rebound, even
when `pv`/`pq` are re-derived.  `corrLog` is a ghost field recording the
arguments of every corrector invocation, in order; it influences nothing.
`raised` records that the unrecognized-stop-mode exception was raised. -/
structure DriverSt where
  V : List CQ
  lam : ℚ
  Vprv : List CQ
  lamprv : ℚ
  z : List ℚ
  step : ℚ
  parametrization : Param
  adapt : Bool
  bus_types : List ℕ
  pv : List ℕ
  pq : List ℕ
  pvpq0 : List ℕ
  continuation : Bool
  cont_steps : ℕ
  normF : ℚ
  success : Bool
  vSeries : List (List CQ)
  lamSeries : List ℚ
  corrLog : List CorrIn
  raised : Bool

/-- The driver state at loop entry (lines 534–556 of the source): lambda 0,
the previous point equal to the base point, tangent equal to the unit
vector in the lambda direction, empty trajectory. -/
def initSt (V : List CQ) (pv pq : List ℕ) (step : ℚ) (parametrization : Param)
    (adapt : Bool) (original_types : List ℕ) (nb : ℕ) : DriverSt :=
  { V := V, lam := 0, Vprv := V, lamprv := 0,
    z := List.replicate (2 * nb) 0 ++ [1],
    step := step, parametrization := parametrization, adapt := adapt,
    bus_types := original_types, pv := pv, pq := pq, pvpq0 := pv ++ pq,
    continuation := true, cont_steps := 0, normF := 0, success := false,
    vSeries := [], lamSeries := [], corrLog := [], raised := false }

/-- The arguments of this iteration's predictor call. -/
def dPredIn (s : DriverSt) : PredIn :=
  ⟨s.V, s.lam, s.step, s.z, s.Vprv, s.lamprv, s.pv, s.pq, s.parametrization⟩

/-- This iteration's predictor output. -/
def dPredOut (c : Collab) (s : DriverSt) : PredOut :=
  c.predictorF (dPredIn s)

/-- The arguments of this iteration's corrector call: the driver always
passes `Sbus = Sbus_base`, the current partition, the predicted guess, and
the just-saved previous point (lines 581–597 of the source). -/
def dCorrIn (cfg : DriverCfg) (c : Collab) (s : DriverSt) : CorrIn :=
  { Sbus := cfg.Sbus_base, V0 := (dPredOut c s).V0, pv := s.pv, pq := s.pq,
    lam0 := (dPredOut c s).lam0, Vprv := s.V, lamprv := s.lam,
    z := (dPredOut c s).z, step := s.step, parametrization := s.parametrization }

/-- This iteration's corrector output. -/
def dCorrOut (cfg : DriverCfg) (c : Collab) (s : DriverSt) : CorrOut :=
  c.correctorF (dCorrIn cfg c s)

/-- This iteration's reactive-limit-control output (meaningful when
`controlQ == ReactivePowerControlMode.Direct`): the source calls
`control_q_direct(V, np.abs(V), Scalc.imag, Qmax_bus, Qmin_bus, bus_types,
original_bus_types)` on the corrector's result. -/
def dQOut (cfg : DriverCfg) (c : Collab) (s : DriverSt) : QOut :=
  c.controlQF (dCorrOut cfg c s).V ((dCorrOut cfg c s).V.map cfg.absF)
    ((dCorrOut cfg c s).Scalc.map CQ.im) cfg.Qmax cfg.Qmin s.bus_types
    cfg.original_types

/-- The re-derived bus power vector `Sbus = Scalc.real + 1j * Qnew`
(line 631 of the source). -/
def dSbusNew (cfg : DriverCfg) (c : Collab) (s : DriverSt) : List CQ :=
  List.zipWith (fun sc q => CQ.mk sc.re q) (dCorrOut cfg c s).Scalc
    (dQOut cfg c s).Qnew

/-- The re-derived partition `vd, pq, pv, pqpv = compile_types(Sbus,
types_new)` (line 632 of the source). -/
def dCompiled (cfg : DriverCfg) (c : Collab) (s : DriverSt) : Compiled :=
  c.compileTypesF (dSbusNew cfg c s) (dQOut cfg c s).types

/-- The guard at lines 671–672 of the source: a `cpf_error` of exactly zero
is replaced by `1e-20` before it is used as a divisor. -/
def guardError (e : ℚ) : ℚ := if e = 0 then 1 / 10 ^ 20 else e

/-- The adaptive step-size update at lines 674–684 of the source:
`step * error_tol / cpf_error`, clamped at `step_max` when the error is
below the tolerance (growing branch) and at `step_min` otherwise
(shrinking branch). -/
def adaptStepUpdate (step error_tol cpf_error step_min step_max : ℚ) : ℚ :=
  if cpf_error < error_tol then
    let s := step * error_tol / cpf_error
    if s > step_max then step_max else s
  else
    let s := step * error_tol / cpf_error
    if s < step_min then step_min else s

/-- The raw `cpf_error` of the adaptive step control (line 668):
`norm(r_[angle(V[pq]), abs(V[pvpq]), lam] - r_[angle(V0[pq]), abs(V0[pvpq]),
lam0], Inf)`, where `pq` is the current (possibly re-derived) pq list and
`pvpq` the loop-invariant initial one. -/
def dAdaptError (cfg : DriverCfg) (V1 V0 : List CQ) (lam lam0 : ℚ)
    (pq pvpq0 : List ℕ) : ℚ :=
  let a := pq.map (fun j => cfg.argF (getC V1 j))
    ++ pvpq0.map (fun j => cfg.absF (getC V1 j)) ++ [lam]
  let b := pq.map (fun j => cfg.argF (getC V0 j))
    ++ pvpq0.map (fun j => cfg.absF (getC V0 j)) ++ [lam0]
  infNorm (subQ a b)

/-- One iteration of the driver's `while continuation` loop (lines 558–695
of the source).  A state on which the loop has ended (or on which the
unrecognized-stop-mode exception was raised) is left unchanged.  Each
active iteration increments `cont_steps`, calls the predictor, saves the
previous point, calls the corrector, appends the corrected `(V, lam)` to
the two series unconditionally, and then: on success runs the optional
reactive-limit control (possibly re-deriving `pv`/`pq`/`bus_types`),
evaluates the stop condition, and adapts the step; on failure just clears
`continuation`. -/
def driverStep (cfg : DriverCfg) (c : Collab) (s : DriverSt) : DriverSt :=
  if s.raised || !s.continuation then s else
  let po := dPredOut c s
  let co := dCorrOut cfg c s
  let base := { s with
    cont_steps := s.cont_steps + 1, Vprv := s.V, lamprv := s.lam, z := po.z,
    V := co.V, lam := co.lam, normF := co.normF, success := co.success,
    vSeries := s.vSeries ++ [co.V], lamSeries := s.lamSeries ++ [co.lam],
    corrLog := s.corrLog ++ [dCorrIn cfg c s] }
  if co.success then
    let qres : List CQ × List ℕ × List ℕ × List ℕ :=
      if cfg.controlQdirect then
        let q := dQOut cfg c s
        if q.changed then (q.V, q.types, (dCompiled cfg c s).pv, (dCompiled cfg c s).pq)
        else (q.V, s.bus_types, s.pv, s.pq)
      else (co.V, s.bus_types, s.pv, s.pq)
    let V1 := qres.1
    let types1 := qres.2.1
    let pv1 := qres.2.2.1
    let pq1 := qres.2.2.2
    let stopRes : Bool × ℚ × Param × Bool × Bool :=
      match cfg.stop_at with
      | StopMode.Full =>
          if |co.lam| < 1 / 10 ^ 8 then (false, s.step, s.parametrization, s.adapt, false)
          else if co.lam < s.lam ∧ co.lam - s.step < 0 then
            (true, co.lam, Param.Natural, false, false)
          else (true, s.step, s.parametrization, s.adapt, false)
      | StopMode.Nose =>
          if co.lam < s.lam then (false, s.step, s.parametrization, s.adapt, false)
          else (true, s.step, s.parametrization, s.adapt, false)
      | StopMode.Other => (true, s.step, s.parametrization, s.adapt, true)
    let cont1 := stopRes.1
    let step1 := stopRes.2.1
    let param1 := stopRes.2.2.1
    let adapt1 := stopRes.2.2.2.1
    if stopRes.2.2.2.2 then
      { base with V := V1, bus_types := types1, pv := pv1, pq := pq1, raised := true }
    else
      let step2 := if adapt1 && cont1 then
          adaptStepUpdate step1 cfg.error_tol
            (guardError (dAdaptError cfg V1 po.V0 co.lam po.lam0 pq1 s.pvpq0))
            cfg.step_min cfg.step_max
        else step1
      { base with
        V := V1, bus_types := types1, pv := pv1, pq := pq1,
        continuation := cont1, step := step2, parametrization := param1,
        adapt := adapt1 }
  else
    { base with continuation := false }

/-- Iterate the driver loop `n` times. -/
def driverRun (cfg : DriverCfg) (c : Collab) : ℕ → DriverSt → DriverSt
  | 0, s => s
  | n + 1, s => driverRun cfg c n (driverStep cfg c s)

/-- Two complex numbers lie on the same closed ray from the origin (equal
polar angle for nonzero values): collinear with nonnegative inner
product. -/
def sameRay (a b : CQ) : Prop :=
  a.re * b.im = a.im * b.re ∧ 0 ≤ a.re * b.re + a.im * b.im

instance (a b : CQ) : Decidable (sameRay a b) := by
  unfold sameRay
  infer_instance

/-- Stand-in for `numpy.angle` in concrete runs; it agrees with the true
angle on nonnegative-real inputs (angle 0), which are the only values it is
applied to in those runs. -/
def qAngleZero : CQ → ℚ := fun _ => 0

/-- Stand-in for `numpy.abs` in concrete runs; it agrees with the true
magnitude on nonnegative-real inputs, which are the only values it is
applied to in those runs. -/
def qAbsRe : CQ → ℚ := fun c => c.re

/-- Stand-in for `exp(1j*theta)` in concrete runs; it agrees with the true
value at `theta = 0`, the only angle it is applied to in those runs. -/
def qExpOne : ℚ → CQ := fun _ => ⟨1, 0⟩

/-- A dummy `CorrIn` used only as the default of list indexing. -/
def junkCorrIn : CorrIn := ⟨[], [], [], [], 0, [], 0, [], 0, Param.Natural⟩

/-- Concrete one-bus driver configuration for concrete runs (Nose mode, no
reactive control). -/
def fixDriverCfg : DriverCfg :=
  { Sbus_base := [⟨1, 0⟩], Sbus_target := [⟨2, 0⟩], stop_at := StopMode.Nose,
    controlQdirect := false, Qmax := [10], Qmin := [-10], original_types := [1],
    error_tol := 1 / 1000, step_min := 1 / 100000, step_max := 1 / 5,
    argF := qAngleZero, absF := qAbsRe }

/-- Concrete predictor output used by the concrete collaborator records. -/
def fixPredOut : PredOut := ⟨[⟨1, 0⟩], 1, [0, 0, 1]⟩

/-- Collaborators whose corrector never converges (used to exercise the
driver's failure path). -/
def collabFail : Collab :=
  { predictorF := fun _ => fixPredOut,
    correctorF := fun _ => ⟨[⟨1, 0⟩], false, 20, 0, 5, [⟨1, 0⟩]⟩,
    controlQF := fun V _ _ _ _ t _ => ⟨V, [0], t, false⟩,
    compileTypesF := fun _ _ => ⟨[0], [1], [2], [1, 2]⟩ }

/-- Collaborators whose corrector always converges at lambda 1 and whose
reactive-limit control reclassifies a bus (`changed = true`), re-deriving
the partition `pv = [2]`, `pq = [1]`. -/
def collabOk : Collab :=
  { predictorF := fun _ => fixPredOut,
    correctorF := fun _ => ⟨[⟨1, 0⟩], true, 1, 1, 0, [⟨5, 0⟩]⟩,
    controlQF := fun _ _ _ _ _ _ _ => ⟨[⟨1, 0⟩], [7], [2], true⟩,
    compileTypesF := fun _ _ => ⟨[0], [1], [2], [1, 2]⟩ }

/-- Concrete initial driver state for the concrete runs (one bus, pq only,
step 1/10, no step adaptation). -/
def fixInit : DriverSt := initSt [⟨1, 0⟩] [] [0] (1 / 10) Param.ArcLength false [1] 1

/-- Driver configuration with direct reactive-power control enabled, for
the concrete reclassification runs. -/
def c1cfg : DriverCfg := { fixDriverCfg with controlQdirect := true }

/-- Predictor configuration for the concrete tangent run: one pq bus, raw
tangent `[0, 3, 4]` of squared norm 25, exact square root 5. -/
def c7cfg : PredCfg :=
  { pv := [], pq := [0], step := 1, Vprv := [⟨1, 0⟩], lamprv := 0,
    parametrization := Param.ArcLength, argF := qAngleZero, absF := qAbsRe,
    expiF := qExpOne, sqrtF := fun q => if q = 25 then 5 else 1,
    solveTan := fun _ _ _ => [0, 3, 4] }

/-- Corrector configuration for the concrete idempotence run: one pq bus,
already solved at the initial guess (`Sbus` matches the computed power), so
the entry residual is zero. -/
def c5cfg : CorrCfg :=
  { Ybus := [[⟨1, 0⟩]], Sbus := [⟨1, 0⟩], Sxfr := [⟨0, 0⟩], pv := [], pq := [0],
    Vprv := [⟨1, 0⟩], lamprv := 0, z := [0, 0, 1], step := 0,
    parametrization := Param.Natural, tol := 1, max_it := 20,
    argF := qAngleZero, absF := qAbsRe, expiF := qExpOne,
    solveDx := fun _ _ _ => [0, 0, 0] }

/-- Corrector configuration for the concrete angle-flip run: one pq bus, no
pv bus, one Newton iteration allowed, and a linear-solve result whose
magnitude component drives the voltage magnitude negative.  Each injected
numeric primitive is exact at every value it is invoked on in this run
(`angle(1) = 0`, `abs(1) = 1`, `exp(1j*0) = 1`). -/
def c10cfg : CorrCfg :=
  { Ybus := [[⟨1, 0⟩]], Sbus := [⟨0, 0⟩], Sxfr := [⟨0, 0⟩], pv := [], pq := [0],
    Vprv := [⟨1, 0⟩], lamprv := 0, z := [0, 0, 1], step := 0,
    parametrization := Param.Natural, tol := 1/2, max_it := 1,
    argF := qAngleZero, absF := qAbsRe, expiF := qExpOne,
    solveDx := fun _ _ _ => [0, 2, 0] }

/-- Sum of a rational list splits over append. -/
theorem sumQ_append (a b : List ℚ) : sumQ (a ++ b) = sumQ a + sumQ b := by
  induction a with
  | nil => simp [sumQ]
  | cons x t ih => simp only [List.cons_append, sumQ, List.foldr_cons] at ih ⊢; rw [ih]; ring

/-- Sum of squares of a rational list splits over append. -/
theorem sumSq_append (a b : List ℚ) : sumSq (a ++ b) = sumSq a + sumSq b := by
  simp [sumSq, List.map_append, sumQ_append]

/-- C9: for the Natural scheme the parametrization value is
`lam - lamprv - step` when `lam >= lamprv` and `lamprv - lam - step`
otherwise; in particular, evaluated at the previous point itself
(`lam = lamprv`) with zero step it is 0. -/
theorem cpf_p_natural_spec (argF absF : CQ → ℚ) (step : ℚ) (z : List ℚ)
    (V : List CQ) (lam : ℚ) (Vprv : List CQ) (lamprv : ℚ) (pv pq pvpq : List ℕ) :
    (lamprv ≤ lam →
      cpf_p argF absF Param.Natural step z V lam Vprv lamprv pv pq pvpq
        = lam - lamprv - step) ∧
    (lam < lamprv →
      cpf_p argF absF Param.Natural step z V lam Vprv lamprv pv pq pvpq
        = lamprv - lam - step) ∧
    cpf_p argF absF Param.Natural 0 z Vprv lamprv Vprv lamprv pv pq pvpq = 0 := by
  refine ⟨fun h => ?_, fun h => ?_, ?_⟩
  · simp [cpf_p, ge_iff_le, h]
  · simp [cpf_p, ge_iff_le, not_le.mpr h, le_of_lt h]
  · simp [cpf_p]

/-- Witness for `cpf_p_natural_spec` at a concrete input: with `lam = 5`,
`lamprv = 2`, `step = 1` the Natural parametrization value is 2. -/
theorem cpf_p_natural_spec_witness :
    cpf_p qAngleZero qAbsRe Param.Natural 1 [] [] 5 [] 2 [] [] [] = 2 := by
  have h := (cpf_p_natural_spec qAngleZero qAbsRe 1 [] [] 5 [] 2 [] [] []).1 (by norm_num)
  rw [h]; norm_num

/-- C3, counterexample: at a concrete input the unrecognized scheme's
derivatives are `([1/2, 1/2], 1/2)` — the PseudoArcLength slices of `z` —
which differ from the Natural derivatives (zero vector and `+1`), so the
claim that the derivative computation falls back to Natural is false. -/
theorem cpf_p_jac_other_counterexample :
    cpf_p_jac qAngleZero qAbsRe Param.Other [1/2, 1/2, 1/2] [⟨1, 0⟩] 0 [⟨1, 0⟩] 0 [] [0] [0]
      = ([1/2, 1/2], 1/2) ∧
    cpf_p_jac qAngleZero qAbsRe Param.Other [1/2, 1/2, 1/2] [⟨1, 0⟩] 0 [⟨1, 0⟩] 0 [] [0] [0]
      ≠ cpf_p_jac qAngleZero qAbsRe Param.Natural [1/2, 1/2, 1/2] [⟨1, 0⟩] 0 [⟨1, 0⟩] 0 [] [0] [0] := by
  constructor
  · norm_num [cpf_p_jac, getQ, List.getD]
  · norm_num [cpf_p_jac, getQ, List.getD]

/-- C3 (amended): an unrecognized parametrization value makes the
parametrization evaluation fall back to the Natural scheme, but makes the
derivative computation fall back to the PseudoArcLength scheme (the slices
of the tangent `z`), not to Natural. -/
theorem cpf_p_other_fallback (argF absF : CQ → ℚ) (step : ℚ) (z : List ℚ)
    (V : List CQ) (lam : ℚ) (Vprv : List CQ) (lamprv : ℚ) (pv pq pvpq : List ℕ) :
    cpf_p argF absF Param.Other step z V lam Vprv lamprv pv pq pvpq
      = cpf_p argF absF Param.Natural step z V lam Vprv lamprv pv pq pvpq ∧
    cpf_p_jac argF absF Param.Other z V lam Vprv lamprv pv pq pvpq
      = cpf_p_jac argF absF Param.PseudoArcLength z V lam Vprv lamprv pv pq pvpq := by
  exact ⟨rfl, rfl⟩

/-- C6: for the ArcLength scheme the parametrization value is the sum of
squared differences in (angle at `pvpq`, magnitude at `pq`, lambda) minus
`step` squared — hence 0 at any point at Euclidean distance `step` from the
previous point in that space — and its derivatives are twice the
differences on those slots, and twice the lambda difference except that
`dP_dlam = 1` when `lam = lamprv`. -/
theorem cpf_p_arclength_spec (argF absF : CQ → ℚ) (step : ℚ) (z : List ℚ)
    (V : List CQ) (lam : ℚ) (Vprv : List CQ) (lamprv : ℚ) (pv pq pvpq : List ℕ) :
    cpf_p argF absF Param.ArcLength step z V lam Vprv lamprv pv pq pvpq
      = sumSq (subQ (pvpq.map fun j => argF (getC V j)) (pvpq.map fun j => argF (getC Vprv j)))
        + sumSq (subQ (pq.map fun j => absF (getC V j)) (pq.map fun j => absF (getC Vprv j)))
        + (lam - lamprv) * (lam - lamprv) - step * step ∧
    (sumSq (subQ (pvpq.map fun j => argF (getC V j)) (pvpq.map fun j => argF (getC Vprv j)))
        + sumSq (subQ (pq.map fun j => absF (getC V j)) (pq.map fun j => absF (getC Vprv j)))
        + (lam - lamprv) * (lam - lamprv) = step * step →
      cpf_p argF absF Param.ArcLength step z V lam Vprv lamprv pv pq pvpq = 0) ∧
    (cpf_p_jac argF absF Param.ArcLength z V lam Vprv lamprv pv pq pvpq).1
      = (subQ (pvpq.map fun j => argF (getC V j)) (pvpq.map fun j => argF (getC Vprv j))).map (fun x => 2 * x)
        ++ (subQ (pq.map fun j => absF (getC V j)) (pq.map fun j => absF (getC Vprv j))).map (fun x => 2 * x) ∧
    (lam = lamprv →
      (cpf_p_jac argF absF Param.ArcLength z V lam Vprv lamprv pv pq pvpq).2 = 1) ∧
    (lam ≠ lamprv →
      (cpf_p_jac argF absF Param.ArcLength z V lam Vprv lamprv pv pq pvpq).2
        = 2 * (lam - lamprv)) := by
  have h1 : (pvpq.map fun j => argF (getC V j)).length
      = (pvpq.map fun j => argF (getC Vprv j)).length := by simp
  have h2 : ((pvpq.map fun j => argF (getC V j)) ++ pq.map fun j => absF (getC V j)).length
      = ((pvpq.map fun j => argF (getC Vprv j)) ++ pq.map fun j => absF (getC Vprv j)).length := by
    simp
  have key : cpf_p argF absF Param.ArcLength step z V lam Vprv lamprv pv pq pvpq
      = sumSq (subQ (pvpq.map fun j => argF (getC V j)) (pvpq.map fun j => argF (getC Vprv j)))
        + sumSq (subQ (pq.map fun j => absF (getC V j)) (pq.map fun j => absF (getC Vprv j)))
        + (lam - lamprv) * (lam - lamprv) - step * step := by
    simp only [cpf_p, subQ]
    rw [List.zipWith_append _ _ _ _ _ h2, List.zipWith_append _ _ _ _ _ h1]
    rw [sumSq_append, sumSq_append]
    simp only [sumSq, sumQ, List.map, List.foldr]
    ring
  refine ⟨key, fun h => by rw [key, h]; ring, ?_, fun h => ?_, fun h => ?_⟩
  · simp only [cpf_p_jac, subQ]
    rw [List.zipWith_append _ _ _ _ _ h1, List.map_append]
  · simp [cpf_p_jac, h]
  · simp [cpf_p_jac, h]

/-- Witness for `cpf_p_arclength_spec` at a concrete input: one pq bus with
unchanged voltage, `lam = 1`, `lamprv = 0`, `step = 1`: the point is at
distance exactly `step` from the previous one, and the ArcLength value is
0. -/
theorem cpf_p_arclength_spec_witness :
    cpf_p qAngleZero qAbsRe Param.ArcLength 1 [] [⟨1, 0⟩] 1 [⟨1, 0⟩] 0 [] [0] [0] = 0 := by
  refine (cpf_p_arclength_spec qAngleZero qAbsRe 1 [] [⟨1, 0⟩] 1 [⟨1, 0⟩] 0 [] [0] [0]).2.1 ?_
  norm_num [sumSq, sumQ, subQ, qAngleZero, qAbsRe, getC]

/-- C8: with a positive step and a positive error, the adaptive update
strictly grows the step when `cpf_error < error_tol` (clamped above at
`step_max`) and strictly shrinks it when `cpf_error > error_tol` (clamped
below at `step_min`); and a `cpf_error` of exactly zero is replaced by the
negligible positive value `1e-20`, so the division never sees an exact
zero. -/
theorem adaptStepUpdate_spec (step et err smin smax : ℚ) :
    (0 < step → 0 < err → err < et → step ≤ smax →
      step ≤ adaptStepUpdate step et err smin smax ∧
      adaptStepUpdate step et err smin smax ≤ smax ∧
      (step < smax → step < adaptStepUpdate step et err smin smax)) ∧
    (0 < step → 0 < err → 0 < et → et < err → smin ≤ step →
      adaptStepUpdate step et err smin smax ≤ step ∧
      smin ≤ adaptStepUpdate step et err smin smax ∧
      (smin < step → adaptStepUpdate step et err smin smax < step)) ∧
    (0 ≤ err → 0 < guardError err) ∧
    guardError 0 = 1 / 10 ^ 20 := by
  refine ⟨fun hs he hlt hmax => ?_, fun hs he het hgt hmin => ?_, fun h => ?_, by simp [guardError]⟩
  · have hgrow : step < step * et / err := by
      rw [lt_div_iff₀ he]
      exact (mul_lt_mul_left hs).mpr hlt
    unfold adaptStepUpdate
    rw [if_pos hlt]
    by_cases hclamp : step * et / err > smax
    · rw [if_pos hclamp]
      exact ⟨hmax, le_refl _, fun h => h⟩
    · rw [if_neg hclamp]
      exact ⟨le_of_lt hgrow, not_lt.mp hclamp, fun _ => hgrow⟩
  · have hshrink : step * et / err < step := by
      rw [div_lt_iff₀ he]
      exact (mul_lt_mul_left hs).mpr hgt
    unfold adaptStepUpdate
    rw [if_neg (not_lt.mpr (le_of_lt hgt))]
    by_cases hclamp : step * et / err < smin
    · rw [if_pos hclamp]
      exact ⟨hmin, le_refl _, fun h => h⟩
    · rw [if_neg hclamp]
      exact ⟨le_of_lt hshrink, not_lt.mp hclamp, fun _ => hshrink⟩
  · unfold guardError
    by_cases h0 : err = 0
    · rw [if_pos h0]; norm_num
    · rw [if_neg h0]; exact lt_of_le_of_ne h (Ne.symm h0)

/-- Witness for `adaptStepUpdate_spec` at concrete inputs: with step 1,
tolerance 2, error 1 the step strictly grows; with step 4, tolerance 1,
error 2 and floor 1/8 it strictly shrinks; a zero error is replaced by a
positive value. -/
theorem adaptStepUpdate_spec_witness :
    (1 : ℚ) < adaptStepUpdate 1 2 1 0 10 ∧
    adaptStepUpdate 4 1 2 (1/8) 10 < 4 ∧
    (0 : ℚ) < guardError 0 := by
  refine ⟨?_, ?_, ?_⟩
  · exact ((adaptStepUpdate_spec 1 2 1 0 10).1 (by norm_num) (by norm_num) (by norm_num)
      (by norm_num)).2.2 (by norm_num)
  · exact ((adaptStepUpdate_spec 4 1 2 (1/8) 10).2.1 (by norm_num) (by norm_num) (by norm_num)
      (by norm_num) (by norm_num)).2.2 (by norm_num)
  · exact (adaptStepUpdate_spec 1 1 0 0 1).2.2.1 (by norm_num)

/-- One driver iteration keeps `len(voltage_series) = len(lambda_series) =
cont_steps`: an ended iteration changes nothing, an active one appends
exactly one entry to each series and increments the step counter once,
on success and on failure alike. -/
theorem driverStep_series_len (cfg : DriverCfg) (c : Collab) (s : DriverSt)
    (h1 : s.vSeries.length = s.cont_steps) (h2 : s.lamSeries.length = s.cont_steps) :
    (driverStep cfg c s).vSeries.length = (driverStep cfg c s).cont_steps ∧
    (driverStep cfg c s).lamSeries.length = (driverStep cfg c s).cont_steps := by
  unfold driverStep
  split
  · exact ⟨h1, h2⟩
  · constructor <;>
    · simp only [apply_ite (fun t : DriverSt => t.vSeries),
        apply_ite (fun t : DriverSt => t.lamSeries),
        apply_ite (fun t : DriverSt => t.cont_steps)]
      simp [h1, h2]

/-- C4: at every point of a driver run, the voltage series and the lambda
series have the same length, equal to the number of continuation steps
attempted (`cont_steps`): each loop iteration appends exactly one `(V, lam)`
pair — also the pair of a failing corrector step, appended before the trace
terminates. -/
theorem driver_series_length (cfg : DriverCfg) (c : Collab) (V : List CQ)
    (pv pq : List ℕ) (step : ℚ) (param : Param) (adapt : Bool)
    (types : List ℕ) (nb n : ℕ) :
    (driverRun cfg c n (initSt V pv pq step param adapt types nb)).vSeries.length
      = (driverRun cfg c n (initSt V pv pq step param adapt types nb)).cont_steps ∧
    (driverRun cfg c n (initSt V pv pq step param adapt types nb)).lamSeries.length
      = (driverRun cfg c n (initSt V pv pq step param adapt types nb)).cont_steps := by
  have gen : ∀ m s, s.vSeries.length = s.cont_steps → s.lamSeries.length = s.cont_steps →
      (driverRun cfg c m s).vSeries.length = (driverRun cfg c m s).cont_steps ∧
      (driverRun cfg c m s).lamSeries.length = (driverRun cfg c m s).cont_steps := by
    intro m
    induction m with
    | zero => exact fun s a b => ⟨a, b⟩
    | succ k ih =>
        intro s a b
        have h := driverStep_series_len cfg c s a b
        exact ih (driverStep cfg c s) h.1 h.2
  exact gen n _ (by simp [initSt]) (by simp [initSt])

/-- C2 (amended): an unrecognized stop-mode value is rejected only mid-loop
— in any running iteration, the driver first runs the predictor and the
corrector (the corrector call is appended to the log); if that corrector
step succeeded the exception is raised, while if it failed the driver ends
the trace normally and never rejects the configuration. -/
theorem driver_stop_other_midloop (cfg : DriverCfg) (c : Collab) (s : DriverSt)
    (hstop : cfg.stop_at = StopMode.Other) (hr : s.raised = false)
    (hcont : s.continuation = true) :
    ((dCorrOut cfg c s).success = true →
      (driverStep cfg c s).raised = true ∧
      (driverStep cfg c s).cont_steps = s.cont_steps + 1 ∧
      (driverStep cfg c s).corrLog = s.corrLog ++ [dCorrIn cfg c s]) ∧
    ((dCorrOut cfg c s).success = false →
      (driverStep cfg c s).raised = false ∧
      (driverStep cfg c s).continuation = false ∧
      (driverStep cfg c s).cont_steps = s.cont_steps + 1) := by
  constructor
  · intro h
    simp [driverStep, hr, hcont, hstop, h]
  · intro h
    simp [driverStep, hr, hcont, h]

/-- C2, counterexample: with an unrecognized stop mode and a corrector that
fails, the driver does not reject the configuration at all — it runs one
full predictor/corrector step (one corrector call logged, one step counted)
and terminates normally with no exception, contradicting rejection at
entry before any continuation step. -/
theorem driver_stop_other_counterexample :
    (driverRun { fixDriverCfg with stop_at := StopMode.Other } collabFail 1 fixInit).raised
      = false ∧
    (driverRun { fixDriverCfg with stop_at := StopMode.Other } collabFail 1 fixInit).continuation
      = false ∧
    (driverRun { fixDriverCfg with stop_at := StopMode.Other } collabFail 1 fixInit).cont_steps
      = 1 ∧
    (driverRun { fixDriverCfg with stop_at := StopMode.Other } collabFail 1 fixInit).corrLog.length
      = 1 := by
  norm_num [driverRun, driverStep, fixInit, initSt, dCorrOut, dCorrIn, dPredOut, dPredIn,
    collabFail, fixPredOut, fixDriverCfg]

/-- Witness for `driver_stop_other_midloop`: at the concrete configuration
with a succeeding corrector, the exception is indeed raised, mid-loop, in
the first iteration. -/
theorem driver_stop_other_witness :
    (driverStep { fixDriverCfg with stop_at := StopMode.Other } collabOk fixInit).raised = true ∧
    (driverStep { fixDriverCfg with stop_at := StopMode.Other } collabOk fixInit).cont_steps = 1 := by
  have h := (driver_stop_other_midloop { fixDriverCfg with stop_at := StopMode.Other }
    collabOk fixInit rfl rfl rfl).1 rfl
  exact ⟨h.1, h.2.1⟩

/-- C1 (amended): when a successful corrector step triggers reactive-limit
reclassification, the driver re-derives and installs the partition from
`compile_types` (and the new bus types), and the next corrector call uses
that re-derived partition — but the bus power vector handed to every
corrector call, including all calls after the reclassification, is always
the original base injection vector `Sbus_base`; the re-derived power vector
`Scalc.real + 1j*Qnew` is used only as the input of `compile_types`. -/
theorem driver_qcontrol_repartition :
    (∀ (cfg : DriverCfg) (c : Collab) (V : List CQ) (pv pq : List ℕ) (step : ℚ)
        (param : Param) (adapt : Bool) (types : List ℕ) (nb n : ℕ),
      ∀ ci ∈ (driverRun cfg c n (initSt V pv pq step param adapt types nb)).corrLog,
        ci.Sbus = cfg.Sbus_base) ∧
    (∀ (cfg : DriverCfg) (c : Collab) (s : DriverSt),
      s.raised = false → s.continuation = true → cfg.controlQdirect = true →
      (dCorrOut cfg c s).success = true → (dQOut cfg c s).changed = true →
      (driverStep cfg c s).pv = (dCompiled cfg c s).pv ∧
      (driverStep cfg c s).pq = (dCompiled cfg c s).pq ∧
      (driverStep cfg c s).bus_types = (dQOut cfg c s).types ∧
      (dCorrIn cfg c (driverStep cfg c s)).pv = (dCompiled cfg c s).pv ∧
      (dCorrIn cfg c (driverStep cfg c s)).pq = (dCompiled cfg c s).pq ∧
      (dCorrIn cfg c (driverStep cfg c s)).Sbus = cfg.Sbus_base) := by
  constructor
  · intro cfg c V pv pq step param adapt types nb n
    have logstep : ∀ s : DriverSt, (∀ ci ∈ s.corrLog, ci.Sbus = cfg.Sbus_base) →
        ∀ ci ∈ (driverStep cfg c s).corrLog, ci.Sbus = cfg.Sbus_base := by
      intro s hs ci hci
      by_cases hr : (s.raised || !s.continuation) = true
      · unfold driverStep at hci
        rw [if_pos hr] at hci
        exact hs ci hci
      · unfold driverStep at hci
        rw [if_neg hr] at hci
        simp only [apply_ite (fun t : DriverSt => t.corrLog), ite_self] at hci
        rcases List.mem_append.mp hci with h | h
        · exact hs ci h
        · rw [List.mem_singleton.mp h]; rfl
    have gen : ∀ m s, (∀ ci ∈ s.corrLog, ci.Sbus = cfg.Sbus_base) →
        ∀ ci ∈ (driverRun cfg c m s).corrLog, ci.Sbus = cfg.Sbus_base := by
      intro m
      induction m with
      | zero => exact fun s hs => hs
      | succ k ih => exact fun s hs => ih (driverStep cfg c s) (logstep s hs)
    exact gen n _ (by simp [initSt])
  · intro cfg c s hr hcont hq hsucc hch
    have hpv : (driverStep cfg c s).pv = (dCompiled cfg c s).pv := by
      unfold driverStep
      rw [if_neg (by rw [hr, hcont]; simp)]
      simp only [hsucc, if_true, hq, hch, ite_true,
        apply_ite (fun t : DriverSt => t.pv), ite_self]
    have hpq : (driverStep cfg c s).pq = (dCompiled cfg c s).pq := by
      unfold driverStep
      rw [if_neg (by rw [hr, hcont]; simp)]
      simp only [hsucc, if_true, hq, hch, ite_true,
        apply_ite (fun t : DriverSt => t.pq), ite_self]
    have hbt : (driverStep cfg c s).bus_types = (dQOut cfg c s).types := by
      unfold driverStep
      rw [if_neg (by rw [hr, hcont]; simp)]
      simp only [hsucc, if_true, hq, hch, ite_true,
        apply_ite (fun t : DriverSt => t.bus_types), ite_self]
    exact ⟨hpv, hpq, hbt, by rw [dCorrIn, hpv], by rw [dCorrIn, hpq], rfl⟩

/-- C1, counterexample: in a concrete two-step run whose first step
reclassifies a bus (`changed = true`), the re-derived bus power vector is
`[5 + 7j]`, different from the base vector `[1]`; the second corrector call
does receive the re-derived partition (`pv = [2]`, `pq = [1]`) but its bus
power vector is still the original `Sbus_base`, not the re-derived one. -/
theorem driver_qcontrol_counterexample :
    (dQOut c1cfg collabOk fixInit).changed = true ∧
    dSbusNew c1cfg collabOk fixInit ≠ c1cfg.Sbus_base ∧
    (driverRun c1cfg collabOk 2 fixInit).corrLog.length = 2 ∧
    ((driverRun c1cfg collabOk 2 fixInit).corrLog.getD 1 junkCorrIn).Sbus = c1cfg.Sbus_base ∧
    ((driverRun c1cfg collabOk 2 fixInit).corrLog.getD 1 junkCorrIn).pv = [2] ∧
    ((driverRun c1cfg collabOk 2 fixInit).corrLog.getD 1 junkCorrIn).pq = [1] := by
  norm_num [driverRun, driverStep, dQOut, dSbusNew, dCompiled, dCorrOut, dCorrIn, dPredOut,
    dPredIn, c1cfg, fixDriverCfg, fixInit, initSt, collabOk, fixPredOut, junkCorrIn, CQ.mk.injEq]

/-- Witness for `driver_qcontrol_repartition` at the concrete
reclassifying run: the next corrector input carries the re-derived
partition and the original base power vector. -/
theorem driver_qcontrol_repartition_witness :
    (driverStep c1cfg collabOk fixInit).pv = [2] ∧
    (dCorrIn c1cfg collabOk (driverStep c1cfg collabOk fixInit)).Sbus = [⟨1, 0⟩] := by
  have h := driver_qcontrol_repartition.2 c1cfg collabOk fixInit rfl rfl rfl rfl rfl
  exact ⟨h.1, h.2.2.2.2.2⟩

/-- Indexing a `mapIdx` image in bounds applies the function at the index. -/
theorem getQ_mapIdx (f : ℕ → ℚ → ℚ) (l : List ℚ) (j : ℕ) (h : j < l.length) :
    getQ (l.mapIdx f) j = f j (getQ l j) := by
  have h2 : j < (l.mapIdx f).length := by simpa using h
  unfold getQ
  rw [List.getD_eq_getElem?_getD, List.getElem?_eq_getElem h2,
    List.getD_eq_getElem?_getD, List.getElem?_eq_getElem h]
  simp

/-- Indexing a mapped complex list in bounds applies the function to the
entry. -/
theorem getQ_mapC (f : CQ → ℚ) (l : List CQ) (j : ℕ) (h : j < l.length) :
    getQ (l.map f) j = f (getC l j) := by
  have h2 : j < (l.map f).length := by simpa using h
  unfold getQ getC
  rw [List.getD_eq_getElem?_getD, List.getElem?_eq_getElem h2,
    List.getD_eq_getElem?_getD, List.getElem?_eq_getElem h]
  simp

/-- Dividing each entry by `n` divides the sum of squares by `n` squared. -/
theorem sumSq_map_div (l : List ℚ) (n : ℚ) :
    sumSq (l.map (· / n)) = sumSq l / n ^ 2 := by
  induction l with
  | nil => simp [sumSq, sumQ]
  | cons x t ih =>
      simp only [List.map_cons, sumSq, sumQ, List.foldr_cons, List.map_cons] at ih ⊢
      rw [ih, div_mul_div_comm, ← div_add_div_same]
      ring_nf

/-- C7: when the square root returned for the raw tangent's squared norm is
exact and positive (the raw tangent is nonzero), the predictor's returned
tangent has Euclidean norm 1 (squared norm exactly 1), and the predicted
point is the current point advanced by `step` along the tangent: angles at
`pvpq` advance by `step * z[j]`, magnitudes at `pq` by `step * z[j + nb]`,
lambda by `step * z[2*nb]`; all other polar entries are unchanged.  This
holds for every parametrization scheme carried by `cfg`. -/
theorem predictor_spec (cfg : PredCfg) (V : List CQ) (lam : ℚ) (z : List ℚ)
    (hsq : cfg.sqrtF (sumSq (predZraw cfg V lam z)) ^ 2 = sumSq (predZraw cfg V lam z))
    (hpos : 0 < cfg.sqrtF (sumSq (predZraw cfg V lam z))) :
    sumSq (predictor cfg V lam z).2.2 = 1 ∧
    (predictor cfg V lam z).2.1
      = lam + cfg.step * getQ (predictor cfg V lam z).2.2 (2 * V.length) ∧
    (predictor cfg V lam z).1
      = List.zipWith (fun vm va => CQ.smul vm (cfg.expiF va))
        (predVm0 cfg V lam z) (predVa0 cfg V lam z) ∧
    (∀ j, j < V.length → j ∈ cfg.pv ++ cfg.pq →
      getQ (predVa0 cfg V lam z) j
        = cfg.argF (getC V j) + cfg.step * getQ (predZ cfg V lam z) j) ∧
    (∀ j, j < V.length → j ∉ cfg.pv ++ cfg.pq →
      getQ (predVa0 cfg V lam z) j = cfg.argF (getC V j)) ∧
    (∀ j, j < V.length → j ∈ cfg.pq →
      getQ (predVm0 cfg V lam z) j
        = cfg.absF (getC V j) + cfg.step * getQ (predZ cfg V lam z) (j + V.length)) ∧
    (∀ j, j < V.length → j ∉ cfg.pq →
      getQ (predVm0 cfg V lam z) j = cfg.absF (getC V j)) := by
  have hnorm : sumSq (predZ cfg V lam z) = 1 := by
    have hs0 : (0 : ℚ) < sumSq (predZraw cfg V lam z) := hsq ▸ pow_pos hpos 2
    unfold predZ
    rw [sumSq_map_div, hsq]
    exact div_self (ne_of_gt hs0)
  refine ⟨hnorm, rfl, rfl, fun j hj hmem => ?_, fun j hj hmem => ?_,
    fun j hj hmem => ?_, fun j hj hmem => ?_⟩
  · simp only [predVa0]
    rw [getQ_mapIdx _ _ j (by simpa using hj), if_pos hmem, getQ_mapC _ _ j hj]
  · simp only [predVa0]
    rw [getQ_mapIdx _ _ j (by simpa using hj), if_neg hmem, getQ_mapC _ _ j hj]
  · simp only [predVm0]
    rw [getQ_mapIdx _ _ j (by simpa using hj), if_pos hmem, getQ_mapC _ _ j hj]
  · simp only [predVm0]
    rw [getQ_mapIdx _ _ j (by simpa using hj), if_neg hmem, getQ_mapC _ _ j hj]

/-- Witness for `predictor_spec` at the concrete run: the normalized
tangent has squared norm 1 and the predicted lambda advances by
`step * z[2*nb]`. -/
theorem predictor_spec_witness :
    sumSq (predictor c7cfg [⟨1, 0⟩] 0 [0, 0, 0]).2.2 = 1 ∧
    (predictor c7cfg [⟨1, 0⟩] 0 [0, 0, 0]).2.1
      = 0 + c7cfg.step * getQ (predictor c7cfg [⟨1, 0⟩] 0 [0, 0, 0]).2.2 2 := by
  have hsq : c7cfg.sqrtF (sumSq (predZraw c7cfg [⟨1, 0⟩] 0 [0, 0, 0])) ^ 2
      = sumSq (predZraw c7cfg [⟨1, 0⟩] 0 [0, 0, 0]) := by
    norm_num [c7cfg, predZraw, setAt, sumSq, sumQ, getQ, List.mapIdx, List.mapIdx.go,
      List.findIdx?_cons, List.findIdx?_nil]
  have hpos : 0 < c7cfg.sqrtF (sumSq (predZraw c7cfg [⟨1, 0⟩] 0 [0, 0, 0])) := by
    norm_num [c7cfg, predZraw, setAt, sumSq, sumQ, getQ, List.mapIdx, List.mapIdx.go,
      List.findIdx?_cons, List.findIdx?_nil]
  have h := predictor_spec c7cfg [⟨1, 0⟩] 0 [0, 0, 0] hsq hpos
  exact ⟨h.1, h.2.1⟩

/-- Componentwise form of complex addition, for rewriting. -/
theorem CQ.add_eq (a b : CQ) : a + b = ⟨a.re + b.re, a.im + b.im⟩ := rfl

/-- Componentwise form of complex subtraction, for rewriting. -/
theorem CQ.sub_eq (a b : CQ) : a - b = ⟨a.re - b.re, a.im - b.im⟩ := rfl

/-- Componentwise form of complex multiplication, for rewriting. -/
theorem CQ.mul_eq (a b : CQ) :
    a * b = ⟨a.re * b.re - a.im * b.im, a.re * b.im + a.im * b.re⟩ := rfl

/-- The residual recomposed inside the Newton loop equals the entry-form
residual: `r_[pv ++ pq]` of the real mismatch splits over the
concatenation. -/
theorem corrFloop_eq_corrF0 (cfg : CorrCfg) (V : List CQ) (lam : ℚ) :
    corrFloop cfg V lam = corrF0 cfg V lam := by
  simp only [corrFloop, corrF0]
  rw [List.map_append]

/-- The state produced by one Newton body carries the infinity norm of the
loop residual at its own `(V, lam)`. -/
theorem corrBody_normF (cfg : CorrCfg) (st : CorrSt) :
    (corrBody cfg st).normF
      = infNorm (corrFloop cfg (corrBody cfg st).V (corrBody cfg st).lam) := rfl

/-- A converged Newton loop returns a point whose loop residual is below
the tolerance. -/
theorem corrLoop_residual (cfg : CorrCfg) :
    ∀ fuel st, (corrLoop cfg fuel st).converged = true →
      infNorm (corrFloop cfg (corrLoop cfg fuel st).V (corrLoop cfg fuel st).lam)
        < cfg.tol := by
  intro fuel
  induction fuel with
  | zero => intro st h; simp [corrLoop] at h
  | succ k ih =>
      intro st h
      rw [corrLoop] at h ⊢
      by_cases hc : (corrBody cfg st).normF < cfg.tol
      · rw [if_pos hc] at h ⊢
        exact corrBody_normF cfg st ▸ hc
      · rw [if_neg hc] at h ⊢
        exact ih (corrBody cfg st) h

/-- A corrector call whose entry residual is already below the tolerance
returns immediately: converged, iteration count 0, unchanged point. -/
theorem corrector_entry (cfg : CorrCfg) (W : List CQ) (mu : ℚ)
    (hc : infNorm (corrF0 cfg W mu) < cfg.tol) :
    corrector cfg W mu
      = ⟨W, true, 0, mu, infNorm (corrF0 cfg W mu), calcScalc cfg.Ybus W⟩ := by
  simp only [corrector]
  rw [if_pos hc]

/-- C5 (amended): calling the corrector again on its own converged output
(same previous point, tangent, step, scheme and tolerance) converges
immediately: the entry residual of the second call equals the final
residual of the first, already below the tolerance, so the Newton loop
body never executes — and the returned iteration count is therefore 0
(the source skips the loop entirely), not 1. -/
theorem corrector_idempotent (cfg : CorrCfg) (V0 : List CQ) (lam0 : ℚ)
    (h : (corrector cfg V0 lam0).converged = true) :
    (corrector cfg (corrector cfg V0 lam0).V (corrector cfg V0 lam0).lam).converged
      = true ∧
    (corrector cfg (corrector cfg V0 lam0).V (corrector cfg V0 lam0).lam).i = 0 := by
  have key : infNorm (corrF0 cfg (corrector cfg V0 lam0).V (corrector cfg V0 lam0).lam)
      < cfg.tol := by
    by_cases hc : infNorm (corrF0 cfg V0 lam0) < cfg.tol
    · rw [corrector_entry cfg V0 lam0 hc]
      exact hc
    · have e : corrector cfg V0 lam0
          = corrLoop cfg cfg.max_it
            ⟨V0, lam0, 0, corrF0 cfg V0 lam0, infNorm (corrF0 cfg V0 lam0),
              calcScalc cfg.Ybus V0⟩ := by
        simp only [corrector]
        rw [if_neg hc]
      rw [e] at h ⊢
      rw [← corrFloop_eq_corrF0]
      exact corrLoop_residual cfg cfg.max_it _ h
  rw [corrector_entry cfg (corrector cfg V0 lam0).V (corrector cfg V0 lam0).lam key]
  exact ⟨rfl, rfl⟩

/-- C5, counterexample: a concrete converged corrector call, re-run on its
own output, converges with iteration count 0 — not "exactly 1 outer
iteration" as claimed: the source's returned count skips the never-entered
loop. -/
theorem corrector_idempotent_counterexample :
    (corrector c5cfg [⟨1, 0⟩] 0).converged = true ∧
    (corrector c5cfg (corrector c5cfg [⟨1, 0⟩] 0).V (corrector c5cfg [⟨1, 0⟩] 0).lam).i
      = 0 ∧
    (corrector c5cfg (corrector c5cfg [⟨1, 0⟩] 0).V (corrector c5cfg [⟨1, 0⟩] 0).lam).i
      ≠ 1 := by
  norm_num [corrector, corrF0, mismatchAt, calcScalc, cpf_p, sumC, getC, getQ, infNorm,
    c5cfg, CQ.mul_eq, CQ.add_eq, CQ.sub_eq, CQ.conj, CQ.smul, CQ.zero,
    List.mapIdx, List.mapIdx.go]

/-- Witness for `corrector_idempotent` at the concrete converged run. -/
theorem corrector_idempotent_witness :
    (corrector c5cfg (corrector c5cfg [⟨1, 0⟩] 0).V (corrector c5cfg [⟨1, 0⟩] 0).lam).converged
      = true ∧
    (corrector c5cfg (corrector c5cfg [⟨1, 0⟩] 0).V (corrector c5cfg [⟨1, 0⟩] 0).lam).i
      = 0 :=
  corrector_idempotent c5cfg [⟨1, 0⟩] 0 (by
    norm_num [corrector, corrF0, mismatchAt, calcScalc, cpf_p, sumC, getC, getQ, infNorm,
      c5cfg, CQ.mul_eq, CQ.add_eq, CQ.sub_eq, CQ.conj, CQ.smul, CQ.zero,
      List.mapIdx, List.mapIdx.go])

/-- C10 (amended): in a corrector call with no pv buses and a nonempty pq
set, each Newton body discards the angle components of `dx` entirely: the
reconstructed voltage vector is built from the angles of the previous
iterate unchanged (`angle(V)` entrywise) and magnitudes updated using only
the slots `[npq, 2*npq)` of `dx` — so the angle state is never advanced by
the Newton step; the returned angle can still differ from the initial one
only through the re-polarization of a non-positive updated magnitude. -/
theorem corrBody_no_pv_angles (cfg : CorrCfg) (st : CorrSt)
    (hpv : cfg.pv = []) (hpq : cfg.pq ≠ []) :
    (corrBody cfg st).V
      = List.zipWith (fun vm va => CQ.smul vm (cfg.expiF va))
        (addAt (st.V.map cfg.absF) cfg.pq
          ((((cfg.solveDx st.V st.lam st.F).map Neg.neg).drop cfg.pq.length).take
            cfg.pq.length))
        (st.V.map cfg.argF) := by
  have hlen : cfg.pq.length ≠ 0 := by
    simpa using hpq
  simp [corrBody, hpv, hlen]

/-- C10, counterexample: in the concrete run the magnitude update `1 - 2`
re-wraps through a negative magnitude, and the returned bus voltage `-1`
does not lie on the ray of the initial guess `1` — its true polar angle is
pi, not the initial 0 — refuting "every returned bus voltage has the same
angle as in the initial guess". -/
theorem corrector_angle_flip_counterexample :
    (corrector c10cfg [⟨1, 0⟩] 0).V = [⟨-1, 0⟩] ∧
    ¬ sameRay ⟨1, 0⟩ ⟨-1, 0⟩ := by
  constructor
  · norm_num [corrector, corrF0, corrFloop, corrBody, corrLoop, mismatchAt, calcScalc,
      cpf_p, sumC, getC, getQ, infNorm, addAt, c10cfg, CQ.mul_eq, CQ.add_eq, CQ.sub_eq,
      CQ.conj, CQ.smul, CQ.zero, qAngleZero, qAbsRe, qExpOne, List.mapIdx, List.mapIdx.go,
      List.findIdx?_cons, List.findIdx?_nil]
  · norm_num [sameRay]

/-- Witness for `corrBody_no_pv_angles` at the concrete state of the
angle-flip run. -/
theorem corrBody_no_pv_angles_witness :
    (corrBody c10cfg ⟨[⟨1, 0⟩], 0, 0, [1, 0, 0], 1, [⟨1, 0⟩]⟩).V
      = List.zipWith (fun vm va => CQ.smul vm (c10cfg.expiF va))
        (addAt ([⟨1, 0⟩].map c10cfg.absF) c10cfg.pq
          ((((c10cfg.solveDx [⟨1, 0⟩] 0 [1, 0, 0]).map Neg.neg).drop c10cfg.pq.length).take
            c10cfg.pq.length))
        ([⟨1, 0⟩].map c10cfg.argF) :=
  corrBody_no_pv_angles c10cfg ⟨[⟨1, 0⟩], 0, 0, [1, 0, 0], 1, [⟨1, 0⟩]⟩ rfl (by simp [c10cfg])
